import Mathlib

/-!
Verification of the single-file stock-portfolio dashboard `yingkui.py`.

The script has three pieces of reproducible logic, embedded here over exact
rationals (the Python floats are idealised as `ℚ`):

* `fetch_usd_cny` — tries a fixed list of HTTP endpoints in order and returns
  the first successfully parsed `rates.CNY` value, falling back to `7.25`.
  The network is modelled by the list of per-endpoint outcomes.
* `fetch_prices` — one batch `yf.download` call; the whole extraction loop is
  wrapped in a single `try/except` that returns `None`, so the download result
  (a frame of `Close` columns, or a raised error) is the model's input.
* the compute-and-render block — builds one row per `input_data` entry with
  `p = prices[ticker]` (an unguarded dict lookup: a missing key raises
  `KeyError`), accumulates USD totals, and renders either the table or a
  "waiting" warning depending on the truthiness of `prices`.
-/

namespace Yingkui

/-! ## Rounding

Python's `round(x, 2)` rounds half to even; on the rational idealisation this
is half-to-even rounding of `x * 100` to an integer, divided by 100. -/

/-- Round a rational to the nearest integer, ties to the even integer
(Python's `round` on a number with no second argument). -/
def roundHalfEven (q : ℚ) : ℤ :=
  let f := q.floor
  let frac := q - f
  if frac < 1/2 then f
  else if 1/2 < frac then f + 1
  else if f % 2 = 0 then f else f + 1

/-- Python's `round(x, 2)`: round to two decimal places, ties to even. -/
def round2 (q : ℚ) : ℚ := (roundHalfEven (q * 100) : ℚ) / 100

/-! ## Rate Provider: `fetch_usd_cny` -/

/-- Outcome of one `requests.get(url, timeout=5)` inside `fetch_usd_cny`:
either the request raises (connection error / timeout), or it returns a
response with a status code and the `rates.CNY` field of the parsed JSON
body — `none` when the body is unparsable or the field is missing, in which
case the source raises inside the `try` and the bare `except` continues. -/
inductive RateOutcome
  | raised
  | response (status : Nat) (cny : Option ℚ)
deriving DecidableEq

/-- A `RateOutcome` from which `fetch_usd_cny` can return a value: status 200
and a parsable CNY field. -/
def RateOutcome.isSuccess : RateOutcome → Bool
  | .response 200 (some _) => true
  | _ => false

/-- `fetch_usd_cny`, modelled over the list of outcomes of its successive
endpoint requests (the source configures two URLs; the loop is uniform in the
list).  For each outcome: a raised request is swallowed and the loop
continues; a 200 response with a parsable CNY field returns that value; a 200
response whose body fails to parse raises, is swallowed, and the loop
continues; any other status falls through to the next URL.  When the list is
exhausted the hard-coded fallback `7.25` is returned. -/
def fetch_usd_cny : List RateOutcome → ℚ
  | [] => 29/4
  | .raised :: rest => fetch_usd_cny rest
  | .response status cny :: rest =>
    if status = 200 then
      match cny with
      | some r => r
      | none => fetch_usd_cny rest
    else fetch_usd_cny rest

/-! ## Price Provider: `fetch_prices` -/

/-- Result of `yf.download(tickers, period="1d", interval="1m")`: either the
call raises (network error), or it returns a frame, modelled by its `Close`
columns — for each ticker column present, the list of cells in row order,
`none` standing for a NaN cell. -/
inductive DownloadResult
  | raised
  | frame (close : List (String × List (Option ℚ)))

/-- Pandas `df.empty`: the frame has no rows or no columns.  With the shared
row index modelled per column, this is every column being rowless (an empty
column list is vacuously so). -/
def frameEmpty (close : List (String × List (Option ℚ))) : Bool :=
  close.all fun c => c.2.isEmpty

/-- `df['Close'][t].dropna().iloc[-1]`: the last non-NaN closing price of
ticker `t`'s column.  `none` models the raising paths: the column is missing
(`KeyError` from `df['Close'][t]`) or holds no non-NaN cell (`IndexError`
from `.iloc[-1]` on an empty series). -/
def lastClose (close : List (String × List (Option ℚ))) (t : String) : Option ℚ :=
  match close.lookup t with
  | none => none
  | some col => (col.filterMap id).getLast?

/-- The extraction loop of `fetch_prices`: builds `current_prices` in ticker
order.  A single failed extraction raises, and the enclosing `except` of
`fetch_prices` turns that into `None` for the whole call, so the loop is
modelled as failing outright. -/
def extractPrices (close : List (String × List (Option ℚ))) :
    List String → Option (List (String × ℚ))
  | [] => some []
  | t :: ts =>
    match lastClose close t with
    | none => none
    | some p => (extractPrices close ts).map fun rest => (t, p) :: rest

/-- `fetch_prices(tickers)`: `None` when the download raises, `None` when the
frame is empty, otherwise the extraction loop's result — which is itself
`None` as soon as any requested ticker fails to yield a price, because the
single `try/except` wraps the whole loop. -/
def fetch_prices (tickers : List String) (dl : DownloadResult) :
    Option (List (String × ℚ)) :=
  match dl with
  | .raised => none
  | .frame close =>
    if frameEmpty close then none
    else extractPrices close tickers

/-! ## Portfolio Calculator -/

/-- One `input_data` entry: ticker, share count (`qty`), cost per share in
USD (`cost`). -/
structure Entry where
  ticker : String
  qty : ℚ
  cost : ℚ
deriving DecidableEq

/-- One row appended to `rows` in the compute loop.  Alongside the displayed
dict fields (`mvUsd` = 市值($), `mvCny` = 市值(¥), `profitCny` = 盈亏(¥),
`pct` = 盈亏率, and the echoed price/qty/cost), the row keeps the loop's
intermediate locals `cost_u`, `val_u`, `profit_u` from which they are built
and which feed the running totals. -/
structure Row where
  ticker : String
  price : ℚ
  qty : ℚ
  costPerShare : ℚ
  costU : ℚ
  valU : ℚ
  profitU : ℚ
  pct : ℚ
  mvUsd : ℚ
  mvCny : ℚ
  profitCny : ℚ
deriving DecidableEq

/-- The summary block computed after the loop: `total_cost_u`,
`total_val_u`, `total_p_u = total_val_u - total_cost_u`, and `total_pct`
guarded against a zero total cost basis.  All four are USD figures; the
rendering multiplies by the rate only at display time. -/
structure Summary where
  totalCostU : ℚ
  totalValU : ℚ
  totalPU : ℚ
  totalPct : ℚ
deriving DecidableEq

/-- The `for ticker, vals in input_data.items()` loop.  Each iteration does
`p = prices[ticker]` — an unguarded dict lookup whose failure raises
`KeyError` and aborts the whole computation — then computes
`cost_u = qty * cost`, `val_u = qty * p`, `profit_u = val_u - cost_u`, the
zero-guarded percentage, adds `cost_u` and `val_u` to the running totals and
appends the row. -/
def computeLoop (prices : List (String × ℚ)) (rate : ℚ) :
    List Entry → Except String (List Row × ℚ × ℚ)
  | [] => .ok ([], 0, 0)
  | e :: es =>
    match prices.lookup e.ticker with
    | none => .error "KeyError"
    | some p =>
      let costU := e.qty * e.cost
      let valU := e.qty * p
      let profitU := valU - costU
      let pct := if costU ≠ 0 then profitU / costU * 100 else 0
      match computeLoop prices rate es with
      | .error msg => .error msg
      | .ok (rows, totalCost, totalVal) =>
        .ok (⟨e.ticker, p, e.qty, e.cost, costU, valU, profitU, pct,
              round2 valU, round2 (valU * rate), round2 (profitU * rate)⟩ :: rows,
             costU + totalCost, valU + totalVal)

/-- The whole compute block under `if prices:`: run the loop, then derive
`total_p_u = total_val_u - total_cost_u` and the zero-guarded `total_pct`
from the summed totals. -/
def computeRows (entries : List Entry) (prices : List (String × ℚ)) (rate : ℚ) :
    Except String (List Row × Summary) :=
  match computeLoop prices rate entries with
  | .error msg => .error msg
  | .ok (rows, totalCost, totalVal) =>
    let totalP := totalVal - totalCost
    let totalPct := if totalCost ≠ 0 then totalP / totalCost * 100 else 0
    .ok (rows, ⟨totalCost, totalVal, totalP, totalPct⟩)

/-! ## Renderer dispatch -/

/-- What the page shows: the data table with the summary metrics, or the
`st.warning` "waiting for the quote server" notice. -/
inductive RenderState
  | waiting
  | table (rows : List Row) (summary : Summary)
deriving DecidableEq

/-- The `if prices: ... else: st.warning(...)` dispatch.  Python truthiness:
both `None` and an empty dict are falsy, so either one selects the warning
branch and the compute block never runs. -/
def renderPass (entries : List Entry) (prices : Option (List (String × ℚ)))
    (rate : ℚ) : Except String RenderState :=
  match prices with
  | none => .ok .waiting
  | some ps =>
    if ps.isEmpty then .ok .waiting
    else
      match computeRows entries ps rate with
      | .error msg => .error msg
      | .ok (rows, s) => .ok (.table rows s)

/-- The `default_stocks` seed values of `input_data` (qty and cost as the
number inputs' defaults). -/
def defaultEntries : List Entry :=
  [⟨"RZLT", 200, 126/100⟩, ⟨"RKLX", 2033/100, 4564/100⟩, ⟨"CRWG", 140, 381/100⟩]

/-- The rate-independent fields of a row: everything except the two CNY
display columns `mvCny` (市值(¥)) and `profitCny` (盈亏(¥)). -/
def Row.sourceFields (r : Row) : String × ℚ × ℚ × ℚ × ℚ × ℚ × ℚ × ℚ × ℚ :=
  (r.ticker, r.price, r.qty, r.costPerShare, r.costU, r.valU, r.profitU, r.pct, r.mvUsd)

/-! ## Helper lemmas -/

theorem computeLoop_spec (prices : List (String × ℚ)) (rate : ℚ) :
    ∀ (entries : List Entry) (rows : List Row) (tc tv : ℚ),
      computeLoop prices rate entries = .ok (rows, tc, tv) →
      (rows.map fun r => (r.ticker, r.qty, r.costPerShare))
          = (entries.map fun e => (e.ticker, e.qty, e.cost)) ∧
      (∀ r ∈ rows, prices.lookup r.ticker = some r.price ∧
        r.costU = r.qty * r.costPerShare ∧
        r.valU = r.qty * r.price ∧
        r.profitU = r.valU - r.costU ∧
        r.pct = (if r.costU ≠ 0 then r.profitU / r.costU * 100 else 0) ∧
        r.mvUsd = round2 r.valU ∧
        r.mvCny = round2 (r.valU * rate) ∧
        r.profitCny = round2 (r.profitU * rate)) ∧
      tc = (rows.map Row.costU).sum ∧
      tv = (rows.map Row.valU).sum := by
  intro entries
  induction entries with
  | nil =>
    intro rows tc tv h
    simp only [computeLoop, Except.ok.injEq, Prod.mk.injEq] at h
    obtain ⟨h1, h2, h3⟩ := h
    subst h1; subst h2; subst h3
    simp
  | cons e es ih =>
    intro rows tc tv h
    simp only [computeLoop] at h
    cases hl : prices.lookup e.ticker with
    | none => rw [hl] at h; simp at h
    | some p =>
      rw [hl] at h
      cases hrec : computeLoop prices rate es with
      | error msg => rw [hrec] at h; simp at h
      | ok triple =>
        obtain ⟨rows', tc', tv'⟩ := triple
        rw [hrec] at h
        simp only [Except.ok.injEq, Prod.mk.injEq] at h
        obtain ⟨h1, h2, h3⟩ := h
        subst h1; subst h2; subst h3
        obtain ⟨ih1, ih2, ih3, ih4⟩ := ih rows' tc' tv' hrec
        refine ⟨by simp [ih1], ?_, by simp [ih3], by simp [ih4]⟩
        intro r hr
        rcases List.mem_cons.mp hr with hr0 | hr'
        · subst hr0
          refine ⟨by simpa using hl, rfl, rfl, rfl, rfl, rfl, rfl, rfl⟩
        · exact ih2 r hr'

theorem computeLoop_error_of_missing (prices : List (String × ℚ)) (rate : ℚ) :
    ∀ entries : List Entry, (∃ e ∈ entries, prices.lookup e.ticker = none) →
      computeLoop prices rate entries = .error "KeyError" := by
  intro entries
  induction entries with
  | nil => rintro ⟨e, he, _⟩; exact absurd he (List.not_mem_nil e)
  | cons e es ih =>
    rintro ⟨e0, he0, hl0⟩
    rcases List.mem_cons.mp he0 with rfl | he0'
    · simp only [computeLoop, hl0]
    · simp only [computeLoop]
      cases hl : prices.lookup e.ticker with
      | none => rfl
      | some p => rw [ih ⟨e0, he0', hl0⟩]
  
theorem computeLoop_ok_of_found (prices : List (String × ℚ)) (rate : ℚ) :
    ∀ entries : List Entry, (∀ e ∈ entries, (prices.lookup e.ticker).isSome) →
      ∃ rows tc tv, computeLoop prices rate entries = .ok (rows, tc, tv) := by
  intro entries
  induction entries with
  | nil => exact fun _ => ⟨[], 0, 0, rfl⟩
  | cons e es ih =>
    intro hall
    obtain ⟨p, hp⟩ := Option.isSome_iff_exists.mp (hall e (List.mem_cons_self e es))
    obtain ⟨rows', tc', tv', hrec⟩ := ih fun e' he' => hall e' (List.mem_cons_of_mem e he')
    refine ⟨⟨e.ticker, p, e.qty, e.cost, e.qty * e.cost, e.qty * p,
      e.qty * p - e.qty * e.cost,
      if e.qty * e.cost ≠ 0 then (e.qty * p - e.qty * e.cost) / (e.qty * e.cost) * 100 else 0,
      round2 (e.qty * p), round2 (e.qty * p * rate),
      round2 ((e.qty * p - e.qty * e.cost) * rate)⟩ :: rows',
      e.qty * e.cost + tc', e.qty * p + tv', ?_⟩
    simp only [computeLoop, hp, hrec]

theorem extractPrices_mem (close : List (String × List (Option ℚ))) :
    ∀ (ts : List String) (m : List (String × ℚ)), extractPrices close ts = some m →
      ∀ t ∈ ts, ∃ p, (t, p) ∈ m := by
  intro ts
  induction ts with
  | nil => intro m _ t ht; exact absurd ht (List.not_mem_nil t)
  | cons t ts ih =>
    intro m h t' ht'
    simp only [extractPrices] at h
    cases hc : lastClose close t with
    | none => rw [hc] at h; simp at h
    | some p =>
      rw [hc] at h
      cases hrec : extractPrices close ts with
      | none => rw [hrec] at h; simp at h
      | some rest =>
        rw [hrec] at h
        simp only [Option.map_some', Option.some.injEq] at h
        subst h
        rcases List.mem_cons.mp ht' with rfl | ht''
        · exact ⟨p, List.mem_cons_self _ _⟩
        · obtain ⟨p', hp'⟩ := ih rest hrec t' ht''
          exact ⟨p', List.mem_cons_of_mem _ hp'⟩

theorem extractPrices_none_of_fail (close : List (String × List (Option ℚ))) :
    ∀ ts : List String, (∃ t ∈ ts, lastClose close t = none) →
      extractPrices close ts = none := by
  intro ts
  induction ts with
  | nil => rintro ⟨t, ht, _⟩; exact absurd ht (List.not_mem_nil t)
  | cons t ts ih =>
    rintro ⟨t0, ht0, hc0⟩
    rcases List.mem_cons.mp ht0 with rfl | ht0'
    · simp only [extractPrices, hc0]
    · simp only [extractPrices]
      cases hc : lastClose close t with
      | none => rfl
      | some p => rw [ih ⟨t0, ht0', hc0⟩]; rfl

theorem computeLoop_rate_congr (prices : List (String × ℚ)) (r1 r2 : ℚ) :
    ∀ entries : List Entry,
      (computeLoop prices r1 entries).map (fun t => (t.1.map Row.sourceFields, t.2)) =
      (computeLoop prices r2 entries).map (fun t => (t.1.map Row.sourceFields, t.2)) := by
  intro entries
  induction entries with
  | nil => rfl
  | cons e es ih =>
    simp only [computeLoop]
    cases hl : prices.lookup e.ticker with
    | none => rfl
    | some p =>
      cases h1 : computeLoop prices r1 es with
      | error m1 =>
        cases h2 : computeLoop prices r2 es with
        | error m2 =>
          rw [h1, h2] at ih
          simpa [Except.map] using ih
        | ok t2 =>
          rw [h1, h2] at ih
          simp [Except.map] at ih
      | ok t1 =>
        cases h2 : computeLoop prices r2 es with
        | error m2 =>
          rw [h1, h2] at ih
          simp [Except.map] at ih
        | ok t2 =>
          obtain ⟨rows1, tc1, tv1⟩ := t1
          obtain ⟨rows2, tc2, tv2⟩ := t2
          rw [h1, h2] at ih
          simp only [Except.map, Except.ok.injEq, Prod.mk.injEq, List.map_cons] at ih ⊢
          obtain ⟨hrows, htc, htv⟩ := ih
          exact ⟨by simp [Row.sourceFields, hrows], by rw [htc], by rw [htv]⟩

theorem fetch_usd_cny_all_fail :
    ∀ outs : List RateOutcome, (∀ o ∈ outs, o.isSuccess = false) →
      fetch_usd_cny outs = 29/4 := by
  intro outs
  induction outs with
  | nil => intro _; rfl
  | cons o rest ih =>
    intro h
    have hrest := fun o' ho' => h o' (List.mem_cons_of_mem o ho')
    cases o with
    | raised => exact ih hrest
    | response s c =>
      have hf := h _ (List.mem_cons_self _ _)
      by_cases hs : s = 200
      · subst hs
        cases c with
        | some r => simp [RateOutcome.isSuccess] at hf
        | none => simp [fetch_usd_cny, ih hrest]
      · simp [fetch_usd_cny, hs, ih hrest]

theorem fetch_usd_cny_first_success :
    ∀ (pre : List RateOutcome) (r : ℚ) (rest : List RateOutcome),
      (∀ o ∈ pre, o.isSuccess = false) →
      fetch_usd_cny (pre ++ RateOutcome.response 200 (some r) :: rest) = r := by
  intro pre
  induction pre with
  | nil => intro r rest _; simp [fetch_usd_cny]
  | cons o pre ih =>
    intro r rest h
    have hpre := fun o' ho' => h o' (List.mem_cons_of_mem o ho')
    have hf := h _ (List.mem_cons_self _ _)
    cases o with
    | raised => simpa [fetch_usd_cny] using ih r rest hpre
    | response s c =>
      by_cases hs : s = 200
      · subst hs
        cases c with
        | some r' => simp [RateOutcome.isSuccess] at hf
        | none => simpa [fetch_usd_cny] using ih r rest hpre
      · simpa [fetch_usd_cny, hs] using ih r rest hpre

/-- C4: `fetch_usd_cny` walks its endpoints in order and returns the first
successfully parsed CNY value; when every endpoint raises, returns a
non-200 status, or returns a 200 body without a parsable CNY field, it
returns exactly the hard-coded fallback `7.25` (= 29/4), never an error. -/
theorem fetch_usd_cny_first_success_else_fallback (outs : List RateOutcome) :
    ((∀ o ∈ outs, o.isSuccess = false) → fetch_usd_cny outs = 29/4) ∧
    (∀ (pre : List RateOutcome) (r : ℚ) (rest : List RateOutcome),
      outs = pre ++ RateOutcome.response 200 (some r) :: rest →
      (∀ o ∈ pre, o.isSuccess = false) →
      fetch_usd_cny outs = r) := by
  refine ⟨fetch_usd_cny_all_fail outs, ?_⟩
  intro pre r rest heq hpre
  rw [heq]
  exact fetch_usd_cny_first_success pre r rest hpre

/-- C4 witness: a run where both endpoints fail (timeout, then HTTP 500,
then 200 with an unparsable body) yields the 7.25 fallback, and a run whose
second endpoint parses to 7.225 after a 404 yields that value. -/
theorem fetch_usd_cny_first_success_else_fallback_witness :
    fetch_usd_cny [.raised, .response 500 (some 7), .response 200 none] = 29/4 ∧
    fetch_usd_cny [.response 404 none, .response 200 (some (289/40))] = 289/40 := by
  constructor
  · exact (fetch_usd_cny_first_success_else_fallback _).1 (by decide)
  · exact (fetch_usd_cny_first_success_else_fallback
      [.response 404 none, .response 200 (some (289/40))]).2
      [.response 404 none] (289/40) [] rfl (by decide)

/-- C1 counterexample: requesting tickers `A` and `B` where the frame has a
well-formed column for `A` but an all-NaN column for `B`.  The claim says the
returned mapping should still carry `A`'s price with `B` absent; in fact the
`B` extraction raises, the batch-wide `except` fires, and `fetch_prices`
returns `None` — no mapping at all is returned. -/
theorem per_ticker_failure_counterexample :
    fetch_prices ["A", "B"] (.frame [("A", [some 3]), ("B", [none])]) = none ∧
    ∀ m, fetch_prices ["A", "B"] (.frame [("A", [some 3]), ("B", [none])]) ≠ some m := by
  have h : fetch_prices ["A", "B"] (.frame [("A", [some 3]), ("B", [none])]) = none := by
    simp [fetch_prices, frameEmpty, extractPrices, lastClose, List.lookup]
  exact ⟨h, fun m hm => by rw [h] at hm; exact Option.noConfusion hm⟩

/-- C1 amended: in the batch strategy of `fetch_prices`, a single ticker
whose column is missing or entirely empty makes the whole call return
`None`: the per-ticker failure aborts the batch and no other ticker's
price is returned either. -/
theorem fetch_prices_single_failure_aborts_batch
    (tickers : List String) (close : List (String × List (Option ℚ)))
    (h : ∃ t ∈ tickers, lastClose close t = none) :
    fetch_prices tickers (.frame close) = none := by
  simp only [fetch_prices]
  by_cases he : frameEmpty close
  · simp [he]
  · simp [he, extractPrices_none_of_fail close tickers h]

/-- C1 amended witness: the concrete frame of the counterexample. -/
theorem fetch_prices_single_failure_aborts_batch_witness :
    (∃ t ∈ ["A", "B"], lastClose [("A", [some 3]), ("B", [none])] t = none) ∧
    fetch_prices ["A", "B"] (.frame [("A", [some 3]), ("B", [none])]) = none := by
  have h : ∃ t ∈ ["A", "B"], lastClose [("A", [some 3]), ("B", [none])] t = none :=
    ⟨"B", by simp, by simp [lastClose, List.lookup]⟩
  exact ⟨h, fetch_prices_single_failure_aborts_batch _ _ h⟩

/-- C9: whenever `fetch_prices` returns a mapping rather than `None`, the
mapping carries a price for every requested ticker — the result is
all-or-nothing, never a partial mapping. -/
theorem fetch_prices_mapping_is_total
    (tickers : List String) (dl : DownloadResult) (m : List (String × ℚ))
    (h : fetch_prices tickers dl = some m) :
    ∀ t ∈ tickers, ∃ p, (t, p) ∈ m := by
  cases dl with
  | raised => simp [fetch_prices] at h
  | frame close =>
    simp only [fetch_prices] at h
    by_cases he : frameEmpty close
    · simp [he] at h
    · rw [if_neg he] at h
      exact extractPrices_mem close tickers m h

/-- C9 witness: a one-ticker frame that resolves; the returned mapping
carries that ticker. -/
theorem fetch_prices_mapping_is_total_witness :
    fetch_prices ["A"] (.frame [("A", [some 3])]) = some [("A", 3)] ∧
    ∀ t ∈ ["A"], ∃ p, (t, p) ∈ [("A", (3 : ℚ))] := by
  have h : fetch_prices ["A"] (.frame [("A", [some 3])]) = some [("A", 3)] := by
    simp [fetch_prices, frameEmpty, extractPrices, lastClose, List.lookup]
  exact ⟨h, fetch_prices_mapping_is_total _ _ _ h⟩

/-- C7 counterexample: on a whole-batch network error `fetch_prices` does
not return an empty mapping: it returns `None`, which is a different Python
value than `{}` (the claim's "empty mapping"). -/
theorem network_error_counterexample :
    fetch_prices ["RZLT", "RKLX", "CRWG"] .raised = none ∧
    ∀ m, fetch_prices ["RZLT", "RKLX", "CRWG"] .raised ≠ some m := by
  exact ⟨rfl, fun m hm => Option.noConfusion hm⟩

/-- C7 amended: on a whole-batch network error `fetch_prices` swallows the
exception and returns `None` (rather than an empty mapping); the caller's
truthiness test treats that `None` exactly like an empty dict, so the render
pass shows the waiting notice and no error propagates. -/
theorem fetch_prices_network_error_returns_none
    (tickers : List String) (entries : List Entry) (rate : ℚ) :
    fetch_prices tickers .raised = none ∧
    renderPass entries (fetch_prices tickers .raised) rate = .ok .waiting :=
  ⟨rfl, rfl⟩

/-- C2 counterexample: the claim's own example.  With entries AAA (10 shares
at 2.00) and BBB (5 at 10.00) and quotes carrying only AAA at 3.00, the
claim says the result holds AAA's position alone; in fact
`p = prices["BBB"]` raises `KeyError` and the whole computation aborts with
no result sequence at all. -/
theorem missing_quote_keyerror_counterexample :
    computeRows [⟨"AAA", 10, 2⟩, ⟨"BBB", 5, 10⟩] [("AAA", 3)] (72/10) = .error "KeyError" ∧
    ∀ rows s, computeRows [⟨"AAA", 10, 2⟩, ⟨"BBB", 5, 10⟩] [("AAA", 3)] (72/10) ≠ .ok (rows, s) := by
  have h : computeRows [⟨"AAA", 10, 2⟩, ⟨"BBB", 5, 10⟩] [("AAA", 3)] (72/10) = .error "KeyError" := by
    simp [computeRows, computeLoop, List.lookup]
  exact ⟨h, fun rows s hc => by rw [h] at hc; exact Except.noConfusion hc⟩

/-- C2 amended: the compute loop does not exclude entries whose ticker has
no quote — any such entry makes the whole computation raise `KeyError`; only
when every entry's ticker has a quote does it return a result, and then the
result holds a position for every entry, in order. -/
theorem computeRows_missing_quote_aborts
    (entries : List Entry) (prices : List (String × ℚ)) (rate : ℚ) :
    ((∃ e ∈ entries, prices.lookup e.ticker = none) →
      computeRows entries prices rate = .error "KeyError") ∧
    ((∀ e ∈ entries, (prices.lookup e.ticker).isSome) →
      ∃ rows s, computeRows entries prices rate = .ok (rows, s) ∧
        rows.map Row.ticker = entries.map Entry.ticker) := by
  constructor
  · intro h
    simp [computeRows, computeLoop_error_of_missing prices rate entries h]
  · intro h
    obtain ⟨rows, tc, tv, hloop⟩ := computeLoop_ok_of_found prices rate entries h
    refine ⟨rows, ⟨tc, tv, tv - tc, if tc ≠ 0 then (tv - tc) / tc * 100 else 0⟩,
      by simp only [computeRows, hloop], ?_⟩
    have h1 := (computeLoop_spec prices rate entries rows tc tv hloop).1
    have h2 := congrArg (List.map Prod.fst) h1
    simpa [List.map_map, Function.comp] using h2

/-- C2 amended witness: with only AAA quoted, an AAA-and-BBB portfolio
aborts with `KeyError`, while an AAA-only portfolio yields one AAA row. -/
theorem computeRows_missing_quote_aborts_witness :
    computeRows [⟨"AAA", 10, 2⟩, ⟨"BBB", 5, 10⟩] [("AAA", 3)] (72/10) = .error "KeyError" ∧
    ∃ rows s, computeRows [⟨"AAA", 10, 2⟩] [("AAA", 3)] (72/10) = .ok (rows, s) ∧
      rows.map Row.ticker = ["AAA"] := by
  constructor
  · exact (computeRows_missing_quote_aborts _ _ _).1
      ⟨⟨"BBB", 5, 10⟩, by simp, by simp [List.lookup]⟩
  · have h := (computeRows_missing_quote_aborts [⟨"AAA", 10, 2⟩] [("AAA", 3)] (72/10)).2
      (by simp [List.lookup])
    simpa using h

/-- C3: for every row the computation produces, the source-currency figures
follow `cost_u = qty * cost`, `val_u = qty * price`,
`profit_u = val_u - cost_u`, the zero-guarded percentage
`profit_u / cost_u * 100`, and the target-currency figures are the rounded
rate multiples `round(val_u * rate, 2)` and `round(profit_u * rate, 2)`;
the rows echo the entries' ticker, quantity and cost in order. -/
theorem computeRows_per_entry_formulas
    (entries : List Entry) (prices : List (String × ℚ)) (rate : ℚ)
    (rows : List Row) (s : Summary)
    (h : computeRows entries prices rate = .ok (rows, s)) :
    (rows.map fun r => (r.ticker, r.qty, r.costPerShare))
        = (entries.map fun e => (e.ticker, e.qty, e.cost)) ∧
    ∀ r ∈ rows, prices.lookup r.ticker = some r.price ∧
      r.costU = r.qty * r.costPerShare ∧
      r.valU = r.qty * r.price ∧
      r.profitU = r.valU - r.costU ∧
      r.pct = (if r.costU ≠ 0 then r.profitU / r.costU * 100 else 0) ∧
      r.mvUsd = round2 r.valU ∧
      r.mvCny = round2 (r.valU * rate) ∧
      r.profitCny = round2 (r.profitU * rate) := by
  cases hloop : computeLoop prices rate entries with
  | error msg => rw [computeRows, hloop] at h; exact Except.noConfusion h
  | ok t =>
    obtain ⟨rows', tc, tv⟩ := t
    rw [computeRows, hloop] at h
    simp only [Except.ok.injEq, Prod.mk.injEq] at h
    obtain ⟨rfl, -⟩ := h
    obtain ⟨h1, h2, -, -⟩ := computeLoop_spec prices rate entries rows' tc tv hloop
    exact ⟨h1, h2⟩

/-- C3 witness: the spec's worked example — entry AAA with 10 shares at
cost 2.00, quote 3.00, rate 7.2 — yields value 30, cost 20, profit 10,
percentage 50, CNY value 216 and CNY profit 72. -/
theorem computeRows_per_entry_formulas_witness :
    computeRows [⟨"AAA", 10, 2⟩] [("AAA", 3)] (36/5) =
      .ok ([⟨"AAA", 3, 10, 2, 20, 30, 10, 50, 30, 216, 72⟩], ⟨20, 30, 10, 50⟩) ∧
    (([(⟨"AAA", 3, 10, 2, 20, 30, 10, 50, 30, 216, 72⟩ : Row)].map
        fun r => (r.ticker, r.qty, r.costPerShare))
        = ([(⟨"AAA", 10, 2⟩ : Entry)].map fun e => (e.ticker, e.qty, e.cost)) ∧
      ∀ r ∈ [(⟨"AAA", 3, 10, 2, 20, 30, 10, 50, 30, 216, 72⟩ : Row)],
        List.lookup r.ticker [("AAA", (3 : ℚ))] = some r.price ∧
        r.costU = r.qty * r.costPerShare ∧
        r.valU = r.qty * r.price ∧
        r.profitU = r.valU - r.costU ∧
        r.pct = (if r.costU ≠ 0 then r.profitU / r.costU * 100 else 0) ∧
        r.mvUsd = round2 r.valU ∧
        r.mvCny = round2 (r.valU * (36/5)) ∧
        r.profitCny = round2 (r.profitU * (36/5))) := by
  have h : computeRows [⟨"AAA", 10, 2⟩] [("AAA", 3)] (36/5) =
      .ok ([⟨"AAA", 3, 10, 2, 20, 30, 10, 50, 30, 216, 72⟩], ⟨20, 30, 10, 50⟩) := by
    simp [computeRows, computeLoop, List.lookup, round2, roundHalfEven, Rat.floor_def']
    norm_num
  exact ⟨h, computeRows_per_entry_formulas _ _ _ _ _ h⟩

/-- C5: an entry bought at zero cost per share has a zero cost basis, and
its row's percentage is 0 by the `cost_u != 0` guard; likewise the aggregate
percentage is 0 whenever the total cost basis is 0.  Both guards select the
constant-0 branch, so no division is attempted (the embedding is a total
function either way). -/
theorem zero_cost_basis_zero_pct
    (entries : List Entry) (prices : List (String × ℚ)) (rate : ℚ)
    (rows : List Row) (s : Summary)
    (h : computeRows entries prices rate = .ok (rows, s)) :
    (∀ r ∈ rows, r.costPerShare = 0 → r.pct = 0) ∧
    (s.totalCostU = 0 → s.totalPct = 0) := by
  cases hloop : computeLoop prices rate entries with
  | error msg => rw [computeRows, hloop] at h; exact Except.noConfusion h
  | ok t =>
    obtain ⟨rows', tc, tv⟩ := t
    rw [computeRows, hloop] at h
    simp only [Except.ok.injEq, Prod.mk.injEq] at h
    obtain ⟨rfl, rfl⟩ := h
    obtain ⟨-, h2, -, -⟩ := computeLoop_spec prices rate entries rows' tc tv hloop
    constructor
    · intro r hr hzero
      obtain ⟨-, hcost, -, -, hpct, -⟩ := h2 r hr
      rw [hpct, if_neg]
      simp [hcost, hzero]
    · intro htc
      simp only at htc
      simp [htc]

/-- C5 witness: a position of 5 shares at zero cost, quoted at 2: its row
percentage is 0 and, the total cost basis being 0, the aggregate percentage
is 0 as well. -/
theorem zero_cost_basis_zero_pct_witness :
    computeRows [⟨"Z", 5, 0⟩] [("Z", 2)] 1 =
      .ok ([⟨"Z", 2, 5, 0, 0, 10, 10, 0, 10, 10, 10⟩], ⟨0, 10, 10, 0⟩) ∧
    (∀ r ∈ [(⟨"Z", 2, 5, 0, 0, 10, 10, 0, 10, 10, 10⟩ : Row)],
      r.costPerShare = 0 → r.pct = 0) ∧
    ((⟨0, 10, 10, 0⟩ : Summary).totalCostU = 0 → (⟨0, 10, 10, 0⟩ : Summary).totalPct = 0) := by
  have h : computeRows [⟨"Z", 5, 0⟩] [("Z", 2)] 1 =
      .ok ([⟨"Z", 2, 5, 0, 0, 10, 10, 0, 10, 10, 10⟩], ⟨0, 10, 10, 0⟩) := by
    simp [computeRows, computeLoop, List.lookup, round2, roundHalfEven, Rat.floor_def']
    norm_num
  exact ⟨h, zero_cost_basis_zero_pct _ _ _ _ _ h⟩

/-- C6: the summary's `total_val_u` is exactly the sum of the rows'
per-position market values `val_u` (likewise `total_cost_u` for cost), and
the total profit is computed as `total_val_u - total_cost_u` from the summed
totals. -/
theorem summary_totals_are_sums
    (entries : List Entry) (prices : List (String × ℚ)) (rate : ℚ)
    (rows : List Row) (s : Summary)
    (h : computeRows entries prices rate = .ok (rows, s)) :
    s.totalValU = (rows.map Row.valU).sum ∧
    s.totalCostU = (rows.map Row.costU).sum ∧
    s.totalPU = s.totalValU - s.totalCostU := by
  cases hloop : computeLoop prices rate entries with
  | error msg => rw [computeRows, hloop] at h; exact Except.noConfusion h
  | ok t =>
    obtain ⟨rows', tc, tv⟩ := t
    rw [computeRows, hloop] at h
    simp only [Except.ok.injEq, Prod.mk.injEq] at h
    obtain ⟨rfl, rfl⟩ := h
    obtain ⟨-, -, h3, h4⟩ := computeLoop_spec prices rate entries rows' tc tv hloop
    exact ⟨h4, h3, rfl⟩

/-- C6 witness: two positions (1 share at cost 1 quoted 2; 2 shares at cost
3 quoted 5) sum to total value 12 and total cost 7, and the total profit is
the difference 5. -/
theorem summary_totals_are_sums_witness :
    computeRows [⟨"A", 1, 1⟩, ⟨"B", 2, 3⟩] [("A", 2), ("B", 5)] 1 =
      .ok ([⟨"A", 2, 1, 1, 1, 2, 1, 100, 2, 2, 1⟩, ⟨"B", 5, 2, 3, 6, 10, 4, 200/3, 10, 10, 4⟩],
           ⟨7, 12, 5, 500/7⟩) ∧
    ((⟨7, 12, 5, 500/7⟩ : Summary).totalValU
        = ([⟨"A", 2, 1, 1, 1, 2, 1, 100, 2, 2, 1⟩,
            ⟨"B", 5, 2, 3, 6, 10, 4, 200/3, 10, 10, 4⟩].map Row.valU).sum ∧
     (⟨7, 12, 5, 500/7⟩ : Summary).totalCostU
        = ([⟨"A", 2, 1, 1, 1, 2, 1, 100, 2, 2, 1⟩,
            ⟨"B", 5, 2, 3, 6, 10, 4, 200/3, 10, 10, 4⟩].map Row.costU).sum ∧
     (⟨7, 12, 5, 500/7⟩ : Summary).totalPU
        = (⟨7, 12, 5, 500/7⟩ : Summary).totalValU - (⟨7, 12, 5, 500/7⟩ : Summary).totalCostU) := by
  have h : computeRows [⟨"A", 1, 1⟩, ⟨"B", 2, 3⟩] [("A", 2), ("B", 5)] 1 =
      .ok ([⟨"A", 2, 1, 1, 1, 2, 1, 100, 2, 2, 1⟩, ⟨"B", 5, 2, 3, 6, 10, 4, 200/3, 10, 10, 4⟩],
           ⟨7, 12, 5, 500/7⟩) := by
    simp [computeRows, computeLoop, List.lookup, round2, roundHalfEven, Rat.floor_def']
    norm_num
  exact ⟨h, summary_totals_are_sums _ _ _ _ _ h⟩

/-- C8 counterexample: with the script's default three-entry portfolio and
an empty quote mapping, the compute loop does not return an empty result
sequence with a zero summary — its very first `prices[ticker]` lookup
raises `KeyError`.  (In the actual control flow the empty dict is falsy, so
this loop is bypassed altogether; either way the claimed Calculator
behaviour does not occur.) -/
theorem empty_quotes_calculator_counterexample :
    computeRows defaultEntries [] (29/4) = .error "KeyError" ∧
    ∀ s : Summary, computeRows defaultEntries [] (29/4) ≠ .ok ([], s) := by
  have h : computeRows defaultEntries [] (29/4) = .error "KeyError" := by
    simp [computeRows, computeLoop, defaultEntries, List.lookup]
  exact ⟨h, fun s hc => by rw [h] at hc; exact Except.noConfusion hc⟩

/-- C8 amended: when the Price Provider yields an empty mapping (or `None`),
the `if prices:` truthiness guard skips the Calculator entirely — it is
never invoked, so it returns nothing at all — and the Renderer displays the
waiting/unavailable warning instead of a table; no error is raised. -/
theorem empty_prices_renders_waiting (entries : List Entry) (rate : ℚ) :
    renderPass entries (some []) rate = .ok .waiting ∧
    renderPass entries none rate = .ok .waiting :=
  ⟨rfl, rfl⟩

/-- C10: running the computation twice with the same entries and quotes but
different exchange rates gives the same outcome up to the two CNY display
columns: projecting every row to its rate-independent fields (everything
except 市值(¥) and 盈亏(¥)) and keeping the summary whole, the two results
are equal — in particular every per-position percentage, every
source-currency amount, and the whole summary (total percentage included)
coincide. -/
theorem rate_independent_percentages
    (entries : List Entry) (prices : List (String × ℚ)) (r1 r2 : ℚ) :
    ((computeRows entries prices r1).map fun t => (t.1.map Row.sourceFields, t.2))
      = ((computeRows entries prices r2).map fun t => (t.1.map Row.sourceFields, t.2)) ∧
    (∀ rows1 s1 rows2 s2,
      computeRows entries prices r1 = .ok (rows1, s1) →
      computeRows entries prices r2 = .ok (rows2, s2) →
      rows1.map Row.pct = rows2.map Row.pct ∧
      rows1.map Row.valU = rows2.map Row.valU ∧
      rows1.map Row.costU = rows2.map Row.costU ∧
      rows1.map Row.profitU = rows2.map Row.profitU ∧
      s1 = s2) := by
  have hc := computeLoop_rate_congr prices r1 r2 entries
  have hmain :
      ((computeRows entries prices r1).map fun t => (t.1.map Row.sourceFields, t.2))
        = ((computeRows entries prices r2).map fun t => (t.1.map Row.sourceFields, t.2)) := by
    cases h1 : computeLoop prices r1 entries with
    | error m1 =>
      cases h2 : computeLoop prices r2 entries with
      | error m2 =>
        rw [h1, h2] at hc
        simp only [Except.map, Except.error.injEq] at hc
        simp [computeRows, h1, h2, Except.map, hc]
      | ok t2 =>
        rw [h1, h2] at hc
        simp [Except.map] at hc
    | ok t1 =>
      cases h2 : computeLoop prices r2 entries with
      | error m2 =>
        rw [h1, h2] at hc
        simp [Except.map] at hc
      | ok t2 =>
        obtain ⟨rows1, tc1, tv1⟩ := t1
        obtain ⟨rows2, tc2, tv2⟩ := t2
        rw [h1, h2] at hc
        simp only [Except.map, Except.ok.injEq, Prod.mk.injEq] at hc
        obtain ⟨hrows, htc, htv⟩ := hc
        subst htc; subst htv
        simp [computeRows, h1, h2, Except.map, hrows]
  refine ⟨hmain, ?_⟩
  intro rows1 s1 rows2 s2 hok1 hok2
  rw [hok1, hok2] at hmain
  simp only [Except.map, Except.ok.injEq, Prod.mk.injEq] at hmain
  obtain ⟨hsf, hs⟩ := hmain
  have hpct := congrArg (List.map fun v : String × ℚ × ℚ × ℚ × ℚ × ℚ × ℚ × ℚ × ℚ =>
    v.2.2.2.2.2.2.2.1) hsf
  have hval := congrArg (List.map fun v : String × ℚ × ℚ × ℚ × ℚ × ℚ × ℚ × ℚ × ℚ =>
    v.2.2.2.2.2.1) hsf
  have hcost := congrArg (List.map fun v : String × ℚ × ℚ × ℚ × ℚ × ℚ × ℚ × ℚ × ℚ =>
    v.2.2.2.2.1) hsf
  have hprofit := congrArg (List.map fun v : String × ℚ × ℚ × ℚ × ℚ × ℚ × ℚ × ℚ × ℚ =>
    v.2.2.2.2.2.2.1) hsf
  refine ⟨?_, ?_, ?_, ?_, hs⟩
  · simpa [List.map_map, Function.comp, Row.sourceFields] using hpct
  · simpa [List.map_map, Function.comp, Row.sourceFields] using hval
  · simpa [List.map_map, Function.comp, Row.sourceFields] using hcost
  · simpa [List.map_map, Function.comp, Row.sourceFields] using hprofit

/-- C10 witness: one position (2 shares at cost 1, quoted 4) computed at
rates 1 and 10: the CNY columns differ (8/6 vs 80/60) while the percentage
300, all USD figures, and the whole summary agree. -/
theorem rate_independent_percentages_witness :
    computeRows [⟨"A", 2, 1⟩] [("A", 4)] 1 =
      .ok ([⟨"A", 4, 2, 1, 2, 8, 6, 300, 8, 8, 6⟩], ⟨2, 8, 6, 300⟩) ∧
    computeRows [⟨"A", 2, 1⟩] [("A", 4)] 10 =
      .ok ([⟨"A", 4, 2, 1, 2, 8, 6, 300, 8, 80, 60⟩], ⟨2, 8, 6, 300⟩) ∧
    ([⟨"A", 4, 2, 1, 2, 8, 6, 300, 8, 8, 6⟩].map Row.pct
        = [(⟨"A", 4, 2, 1, 2, 8, 6, 300, 8, 80, 60⟩ : Row)].map Row.pct ∧
      [⟨"A", 4, 2, 1, 2, 8, 6, 300, 8, 8, 6⟩].map Row.valU
        = [(⟨"A", 4, 2, 1, 2, 8, 6, 300, 8, 80, 60⟩ : Row)].map Row.valU ∧
      [⟨"A", 4, 2, 1, 2, 8, 6, 300, 8, 8, 6⟩].map Row.costU
        = [(⟨"A", 4, 2, 1, 2, 8, 6, 300, 8, 80, 60⟩ : Row)].map Row.costU ∧
      [⟨"A", 4, 2, 1, 2, 8, 6, 300, 8, 8, 6⟩].map Row.profitU
        = [(⟨"A", 4, 2, 1, 2, 8, 6, 300, 8, 80, 60⟩ : Row)].map Row.profitU ∧
      (⟨2, 8, 6, 300⟩ : Summary) = ⟨2, 8, 6, 300⟩) := by
  have h1 : computeRows [⟨"A", 2, 1⟩] [("A", 4)] 1 =
      .ok ([⟨"A", 4, 2, 1, 2, 8, 6, 300, 8, 8, 6⟩], ⟨2, 8, 6, 300⟩) := by
    simp [computeRows, computeLoop, List.lookup, round2, roundHalfEven, Rat.floor_def']
    norm_num
  have h2 : computeRows [⟨"A", 2, 1⟩] [("A", 4)] 10 =
      .ok ([⟨"A", 4, 2, 1, 2, 8, 6, 300, 8, 80, 60⟩], ⟨2, 8, 6, 300⟩) := by
    simp [computeRows, computeLoop, List.lookup, round2, roundHalfEven, Rat.floor_def']
    norm_num
  exact ⟨h1, h2,
    (rate_independent_percentages [⟨"A", 2, 1⟩] [("A", 4)] 1 10).2 _ _ _ _ h1 h2⟩

end Yingkui
